import Mathlib

/-!
# Fixit — verification of the spec claims against the source

A shallow embedding of the Fixit FIX-testing tool (WithSecureLabs/fixit).
Python strings are modelled as `List Char` (Python `ord` = `Char.toNat` on
the ASCII data this tool manipulates); Python's string primitives
(`split`, `join`, `startswith`, `endswith`, `index`, `replace`, `zfill`,
`str(int)`, `int(str)`) are given faithful executable models below, and
each source function is translated on top of them.
-/

namespace Fixit

/-- Python `s.split(sep)` for a single-character separator.
`"".split(c) = [""]`, and a trailing separator yields a final empty piece,
exactly as in Python. -/
def pySplit (sep : Char) : List Char → List (List Char)
  | [] => [[]]
  | c :: rest =>
    if c = sep then [] :: pySplit sep rest
    else
      match pySplit sep rest with
      | [] => [[c]]
      | p :: ps => (c :: p) :: ps

/-- Python `sep.join(pieces)` for a single-character separator. -/
def pyJoin (sep : Char) : List (List Char) → List Char
  | [] => []
  | [p] => p
  | p :: ps => p ++ sep :: pyJoin sep ps

/-- Python `s.startswith(p)`. -/
def pyStartsWith (p s : List Char) : Bool := p.isPrefixOf s

/-- Python `s.endswith(p)`. -/
def pyEndsWith (p s : List Char) : Bool := p.isSuffixOf s

/-- Decimal digit emission for `natToChars`; the first argument is fuel
(`n` itself always suffices since `n < 10 ^ n` for positive `n`). -/
def natToCharsAux : Nat → Nat → List Char
  | 0, _ => []
  | fuel + 1, n =>
    if n = 0 then [] else natToCharsAux fuel (n / 10) ++ [Nat.digitChar (n % 10)]

/-- Python `str(n)` for a natural number (decimal digits, most significant
first, no sign, no leading zeros). -/
def natToChars (n : Nat) : List Char :=
  if n = 0 then ['0'] else natToCharsAux n n

/-- Numeric value of a decimal digit character. -/
def digitVal (c : Char) : Nat := c.toNat - '0'.toNat

/-- Python `int(s)` on a string of decimal digits (the source only applies
`int` to segments it has checked with `isnumeric`). -/
def charsToNat (s : List Char) : Nat := s.foldl (fun a c => 10 * a + digitVal c) 0

/-- Python `s.isnumeric()` restricted to ASCII decimal digits, which is the
only form the store ever produces. -/
def isNumeric (s : List Char) : Bool := ¬ s.isEmpty && s.all (·.isDigit)

end Fixit

namespace Fixit

theorem pySplit_ne_nil (sep : Char) (s : List Char) : pySplit sep s ≠ [] := by
  cases s with
  | nil => simp [pySplit]
  | cons c rest =>
    simp only [pySplit]
    split
    · simp
    · cases h : pySplit sep rest <;> simp

theorem pySplit_cons_of_ne (sep c : Char) (rest : List Char) (hc : c ≠ sep) :
    pySplit sep (c :: rest) =
      (c :: (pySplit sep rest).headD []) :: (pySplit sep rest).tail := by
  simp only [pySplit, if_neg hc]
  cases h : pySplit sep rest with
  | nil => exact absurd h (pySplit_ne_nil sep rest)
  | cons p ps => simp

theorem pyJoin_pySplit (sep : Char) (s : List Char) :
    pyJoin sep (pySplit sep s) = s := by
  induction s with
  | nil => simp [pySplit, pyJoin]
  | cons c rest ih =>
    by_cases hc : c = sep
    · subst hc
      simp only [pySplit, if_pos rfl]
      cases h : pySplit c rest with
      | nil => exact absurd h (pySplit_ne_nil c rest)
      | cons p ps =>
        rw [h] at ih
        simpa [pyJoin] using ih
    · rw [pySplit_cons_of_ne sep c rest hc]
      cases h : pySplit sep rest with
      | nil => exact absurd h (pySplit_ne_nil sep rest)
      | cons p ps =>
        rw [h] at ih
        cases ps with
        | nil => simpa [pyJoin] using ih
        | cons q qs =>
          simp only [List.headD_cons, List.tail_cons]
          simp only [pyJoin] at ih ⊢
          simp [ih]

theorem pySplit_append_sep (sep : Char) (s t : List Char) :
    pySplit sep (s ++ sep :: t) = pySplit sep s ++ pySplit sep t := by
  induction s with
  | nil => simp [pySplit]
  | cons c rest ih =>
    by_cases hc : c = sep
    · subst hc
      simp only [List.cons_append, pySplit, if_pos rfl]
      exact congrArg ([] :: ·) ih
    · rw [List.cons_append, pySplit_cons_of_ne sep c _ hc,
        pySplit_cons_of_ne sep c rest hc, ih]
      cases h : pySplit sep rest with
      | nil => exact absurd h (pySplit_ne_nil sep rest)
      | cons p ps => simp

theorem pySplit_no_sep (sep : Char) (t : List Char) (h : sep ∉ t) :
    pySplit sep t = [t] := by
  induction t with
  | nil => simp [pySplit]
  | cons c rest ih =>
    simp only [List.mem_cons, not_or] at h
    rw [pySplit_cons_of_ne sep c rest (fun hc => h.1 hc.symm)]
    rw [ih h.2]
    simp

end Fixit

namespace Fixit

theorem digitVal_digitChar {d : Nat} (h : d < 10) :
    digitVal d.digitChar = d := by
  interval_cases d <;> decide

theorem foldl_natToCharsAux (fuel : Nat) :
    ∀ n, n ≤ fuel → ∀ acc,
      (natToCharsAux fuel n).foldl (fun a c => 10 * a + digitVal c) acc =
        acc * 10 ^ (natToCharsAux fuel n).length + n := by
  induction fuel with
  | zero =>
    intro n hn acc
    interval_cases n
    simp [natToCharsAux]
  | succ fuel ih =>
    intro n hn acc
    by_cases h0 : n = 0
    · subst h0
      simp [natToCharsAux]
    · have hdiv : n / 10 ≤ fuel :=
        Nat.le_of_lt_succ (Nat.lt_of_lt_of_le (Nat.div_lt_self
          (Nat.pos_of_ne_zero h0) (by norm_num)) hn)
      simp only [natToCharsAux, if_neg h0]
      rw [List.foldl_append]
      simp only [List.foldl_cons, List.foldl_nil]
      rw [ih (n / 10) hdiv acc]
      rw [digitVal_digitChar (Nat.mod_lt n (by norm_num))]
      rw [List.length_append]
      simp only [List.length_cons, List.length_nil]
      rw [pow_succ]
      have := Nat.div_add_mod n 10
      ring_nf
      omega

theorem charsToNat_natToChars (n : Nat) : charsToNat (natToChars n) = n := by
  unfold natToChars charsToNat
  split
  · subst n
    decide
  · rw [foldl_natToCharsAux n n (le_refl n) 0]
    simp

theorem natToChars_injective : Function.Injective natToChars := by
  intro a b hab
  have := congrArg charsToNat hab
  rwa [charsToNat_natToChars, charsToNat_natToChars] at this

theorem natToCharsAux_mem_isDigit (fuel : Nat) :
    ∀ n c, c ∈ natToCharsAux fuel n → c.isDigit := by
  induction fuel with
  | zero => intro n c hc; simp [natToCharsAux] at hc
  | succ fuel ih =>
    intro n c hc
    by_cases h0 : n = 0
    · subst h0; simp [natToCharsAux] at hc
    · simp only [natToCharsAux, if_neg h0, List.mem_append,
        List.mem_singleton] at hc
      rcases hc with hc | hc
      · exact ih _ c hc
      · subst hc
        have : n % 10 < 10 := Nat.mod_lt n (by norm_num)
        interval_cases h : (n % 10) <;> simp_all <;> decide

theorem natToChars_mem_isDigit (n : Nat) (c : Char) (hc : c ∈ natToChars n) :
    c.isDigit := by
  unfold natToChars at hc
  split at hc
  · simp at hc
    subst hc
    decide
  · exact natToCharsAux_mem_isDigit n n c hc

theorem colon_not_mem_natToChars (n : Nat) : ':' ∉ natToChars n := by
  intro h
  have := natToChars_mem_isDigit n ':' h
  simp [Char.isDigit] at this

theorem natToChars_ne_nil (n : Nat) : natToChars n ≠ [] := by
  unfold natToChars
  split
  · simp
  · rename_i h0
    cases n with
    | zero => exact absurd rfl h0
    | succ m =>
      simp only [natToCharsAux, if_neg h0, ne_eq, List.append_eq_nil]
      simp

end Fixit

namespace Fixit

/-!
## Message Store (`fixit/core/message_store.py`)

The store dictionary `self.store` maps an id string to an entry whose
`"id"` field equals its key (`update_store` always inserts
`self.store[msg_obj["id"]] = msg_obj`), so for id generation the store is
modelled by its list of keys.  The interactive result of `_overwrite`
(console prompt) is modelled by the boolean `overwrite`.
-/

/-- `MessageStore.gen_MsgStoreID`:
`f"{BeginString}:{msg_type_name}-{msg_type}:1"`. -/
def gen_MsgStoreID (BeginString msg_type_name msg_type : List Char) : List Char :=
  BeginString ++ ':' :: (msg_type_name ++ '-' :: (msg_type ++ ':' :: ['1']))

/-- Body of `_validate_MsgStoreID`'s while-loop:
split on `":"`, parse the final segment as an integer, add one and re-join. -/
def bumpQualifier (sid : List Char) : List Char :=
  pyJoin ':' (pySplit ':' sid).dropLast ++
    ':' :: natToChars (charsToNat ((pySplit ':' sid).getLastD []) + 1)

/-- The while-loop of `_validate_MsgStoreID` (`while store_id in self.store`),
with explicit fuel; `validate_MsgStoreID` passes `store.length + 1`, which
`resolveLoop_eq_of_min_fresh` shows is always enough for the loop to exit on
an unused id. -/
def resolveCollisionLoop (store : List (List Char)) : List Char → Nat → List Char
  | sid, 0 => sid
  | sid, fuel + 1 =>
    if sid ∈ store then resolveCollisionLoop store (bumpQualifier sid) fuel
    else sid

/-- `MessageStore._validate_MsgStoreID`: return the id unchanged when the
user chose to overwrite; otherwise make the last `":"`-segment numeric
(appending `":1"` when it is not) and bump the qualifier until the id is
unused. -/
def validate_MsgStoreID (store : List (List Char)) (store_id : List Char)
    (overwrite : Bool) : List Char :=
  if overwrite then store_id
  else
    let sid :=
      if ¬ isNumeric ((pySplit ':' store_id).getLastD []) then
        store_id ++ ':' :: ['1']
      else store_id
    resolveCollisionLoop store sid (store.length + 1)

/-- `MessageStore.remove`: `self.store.pop(store_id)`.  `dict.pop` without a
default raises `KeyError` when the key is absent.  The dictionary is an
association list with unique keys. -/
def msgStoreRemove (store : List (List Char × α)) (store_id : List Char) :
    Option (List (List Char × α)) :=
  if store.any (fun e => e.1 = store_id) then
    some (store.eraseP (fun e => e.1 = store_id))
  else
    none

/-- The id tried at qualifier `k` for a fixed prefix. -/
def candidate (pre : List Char) (k : Nat) : List Char :=
  pre ++ ':' :: natToChars k

theorem candidate_inj (pre : List Char) {j k : Nat}
    (h : candidate pre j = candidate pre k) : j = k := by
  unfold candidate at h
  have := List.append_cancel_left h
  exact natToChars_injective (List.cons_injective.eq_iff.mp this)

theorem pySplit_candidate (pre : List Char) (k : Nat) :
    pySplit ':' (candidate pre k) = pySplit ':' pre ++ [natToChars k] := by
  unfold candidate
  rw [pySplit_append_sep, pySplit_no_sep ':' _ (colon_not_mem_natToChars k)]

theorem bumpQualifier_candidate (pre : List Char) (k : Nat) :
    bumpQualifier (candidate pre k) = candidate pre (k + 1) := by
  unfold bumpQualifier
  rw [pySplit_candidate]
  rw [List.getLastD_concat, List.dropLast_concat]
  rw [charsToNat_natToChars, pyJoin_pySplit]
  rfl

end Fixit

namespace Fixit

theorem resolveLoop_eq_of_min_fresh (store : List (List Char)) (pre : List Char) :
    ∀ fuel k j, k ≤ j → j ≤ k + fuel →
      candidate pre j ∉ store →
      (∀ i, k ≤ i → i < j → candidate pre i ∈ store) →
      resolveCollisionLoop store (candidate pre k) fuel = candidate pre j := by
  intro fuel
  induction fuel with
  | zero =>
    intro k j hkj hjk hfresh _
    have hj : j = k := le_antisymm (by simpa using hjk) hkj
    subst hj
    rfl
  | succ fuel ih =>
    intro k j hkj hjk hfresh hmin
    simp only [resolveCollisionLoop]
    by_cases hk : candidate pre k ∈ store
    · rw [if_pos hk, bumpQualifier_candidate]
      have hne : j ≠ k := fun h => hfresh (h ▸ hk)
      have hk1 : k + 1 ≤ j := Nat.lt_of_le_of_ne hkj (Ne.symm hne)
      exact ih (k + 1) j hk1 (by omega) hfresh
        (fun i h1 h2 => hmin i (by omega) h2)
    · rw [if_neg hk]
      have hj : j = k := by
        by_contra hne
        exact hk (hmin k (le_refl k) (Nat.lt_of_le_of_ne hkj (Ne.symm hne)))
      rw [hj]

theorem exists_fresh_candidate (store : List (List Char)) (pre : List Char)
    (k : Nat) :
    ∃ j, k ≤ j ∧ j ≤ k + store.length ∧ candidate pre j ∉ store := by
  by_contra h
  push_neg at h
  set l := (List.range (store.length + 1)).map (fun i => candidate pre (k + i))
    with hl
  have hsub : l ⊆ store := by
    intro x hx
    rw [hl, List.mem_map] at hx
    obtain ⟨i, hi, rfl⟩ := hx
    exact h (k + i) (Nat.le_add_right _ _)
      (Nat.add_le_add_left (Nat.lt_succ_iff.mp (List.mem_range.mp hi)) k)
  have hnd : l.Nodup := by
    rw [hl]
    refine List.Nodup.map ?_ (List.nodup_range _)
    intro a b hab
    have := candidate_inj pre hab
    omega
  have hlen : l.length = store.length + 1 := by
    rw [hl]
    simp
  have h1 : l.toFinset.card = store.length + 1 := by
    rw [List.toFinset_card_of_nodup hnd, hlen]
  have h2 : l.toFinset ⊆ store.toFinset :=
    fun x hx => List.mem_toFinset.mpr (hsub (List.mem_toFinset.mp hx))
  have h3 := Finset.card_le_card h2
  have h4 := store.toFinset_card_le
  omega

theorem exists_min_fresh (store : List (List Char)) (pre : List Char)
    (k : Nat) :
    ∃ j, k ≤ j ∧ j ≤ k + store.length ∧ candidate pre j ∉ store ∧
      ∀ i, k ≤ i → i < j → candidate pre i ∈ store := by
  obtain ⟨j0, h1, h2, h3⟩ := exists_fresh_candidate store pre k
  have hex : ∃ i, candidate pre (k + i) ∉ store :=
    ⟨j0 - k, by rwa [Nat.add_sub_cancel' h1]⟩
  refine ⟨k + Nat.find hex, Nat.le_add_right _ _, ?_, Nat.find_spec hex, ?_⟩
  · have : Nat.find hex ≤ j0 - k :=
      Nat.find_le (by rwa [Nat.add_sub_cancel' h1])
    omega
  · intro i hki hij
    have hlt : i - k < Nat.find hex := by omega
    have := Nat.find_min hex hlt
    rw [Nat.add_sub_cancel' hki] at this
    exact not_not.mp this

end Fixit

namespace Fixit

/-- Everything in a generated store id before its qualifier:
`f"{BeginString}:{msg_type_name}-{msg_type}"`. -/
def genPrefix (BeginString msg_type_name msg_type : List Char) : List Char :=
  BeginString ++ ':' :: (msg_type_name ++ '-' :: msg_type)

theorem gen_eq_candidate (b tn t : List Char) :
    gen_MsgStoreID b tn t = candidate (genPrefix b tn t) 1 := by
  unfold gen_MsgStoreID genPrefix candidate
  have h1 : natToChars 1 = ['1'] := rfl
  rw [h1]
  simp [List.append_assoc]

theorem validate_gen_eq_of_min_fresh (store : List (List Char))
    (b tn t : List Char) (j : Nat) (hj1 : 1 ≤ j)
    (hjb : j ≤ 1 + store.length)
    (hfresh : candidate (genPrefix b tn t) j ∉ store)
    (hmin : ∀ i, 1 ≤ i → i < j → candidate (genPrefix b tn t) i ∈ store) :
    validate_MsgStoreID store (gen_MsgStoreID b tn t) false =
      candidate (genPrefix b tn t) j := by
  unfold validate_MsgStoreID
  rw [if_neg (by simp)]
  rw [gen_eq_candidate]
  have hnum : isNumeric ((pySplit ':' (candidate (genPrefix b tn t) 1)).getLastD []) = true := by
    rw [pySplit_candidate, List.getLastD_concat]
    rfl
  rw [if_neg (not_not_intro hnum)]
  exact resolveLoop_eq_of_min_fresh store (genPrefix b tn t)
    (store.length + 1) 1 j hj1 (by omega) hfresh hmin

theorem validate_MsgStoreID_fresh (store : List (List Char)) (sid : List Char) :
    validate_MsgStoreID store sid false ∉ store := by
  unfold validate_MsgStoreID
  rw [if_neg (by simp)]
  set sid' := if ¬ isNumeric ((pySplit ':' sid).getLastD []) then
      sid ++ ':' :: ['1'] else sid with hsid'
  by_cases h0 : sid' ∈ store
  · show resolveCollisionLoop store sid' (store.length + 1) ∉ store
    simp only [resolveCollisionLoop, if_pos h0]
    have hb : bumpQualifier sid' =
        candidate (pyJoin ':' (pySplit ':' sid').dropLast)
          (charsToNat ((pySplit ':' sid').getLastD []) + 1) := rfl
    rw [hb]
    set pre0 := pyJoin ':' (pySplit ':' sid').dropLast
    set k0 := charsToNat ((pySplit ':' sid').getLastD []) + 1
    obtain ⟨j, hj1, hj2, hj3, hj4⟩ := exists_min_fresh store pre0 k0
    rw [resolveLoop_eq_of_min_fresh store pre0 store.length k0 j hj1
      (by omega) hj3 hj4]
    exact hj3
  · show resolveCollisionLoop store sid' (store.length + 1) ∉ store
    simp only [resolveCollisionLoop, if_neg h0]
    exact h0

end Fixit

namespace Fixit

theorem validate_consecutive_save (store : List (List Char))
    (b tn t : List Char) (q1 : Nat)
    (h1 : validate_MsgStoreID store (gen_MsgStoreID b tn t) false =
      candidate (genPrefix b tn t) q1)
    (h2 : candidate (genPrefix b tn t) (q1 + 1) ∉ store) :
    validate_MsgStoreID (store ++ [candidate (genPrefix b tn t) q1])
        (gen_MsgStoreID b tn t) false = candidate (genPrefix b tn t) (q1 + 1) := by
  obtain ⟨j, hj1, hj2, hj3, hj4⟩ := exists_min_fresh store (genPrefix b tn t) 1
  have hval := validate_gen_eq_of_min_fresh store b tn t j hj1 (by omega) hj3 hj4
  rw [h1] at hval
  have hq : q1 = j := candidate_inj (genPrefix b tn t) hval
  apply validate_gen_eq_of_min_fresh
  · omega
  · simp only [List.length_append, List.length_cons, List.length_nil]
    omega
  · intro hmem
    rw [List.mem_append] at hmem
    rcases hmem with h | h
    · exact h2 h
    · rw [List.mem_singleton] at h
      have := candidate_inj (genPrefix b tn t) h
      omega
  · intro i hi1 hi2
    rw [List.mem_append]
    by_cases hiq : i = q1
    · right
      rw [List.mem_singleton, hiq]
    · left
      exact hj4 i hi1 (by omega)

/-- C5: the collision-resolution loop of `_validate_MsgStoreID` terminates and
returns an id that is not in the store, for every store state and candidate
id (first conjunct).  Saving the same message type twice consecutively with
the overwrite prompt declined yields ids that differ only in the trailing
qualifier, the second qualifier being the first plus one — *provided* the
original store did not already contain the id with qualifier `q1 + 1`
(second conjunct; without that proviso the claim fails, see the
counterexample). -/
theorem C5_store_collision_resolution :
    (∀ (store : List (List Char)) (sid : List Char),
        validate_MsgStoreID store sid false ∉ store) ∧
    (∀ (store : List (List Char)) (b tn t : List Char) (q1 : Nat),
        validate_MsgStoreID store (gen_MsgStoreID b tn t) false =
          candidate (genPrefix b tn t) q1 →
        candidate (genPrefix b tn t) (q1 + 1) ∉ store →
        validate_MsgStoreID (store ++ [candidate (genPrefix b tn t) q1])
            (gen_MsgStoreID b tn t) false =
          candidate (genPrefix b tn t) (q1 + 1)) :=
  ⟨validate_MsgStoreID_fresh, validate_consecutive_save⟩

/-- C5 witness: concrete run of the amended claim.  Store
`{"F:A-A:1"}`: the first save returns `"F:A-A:2"` and the consecutive second
save returns `"F:A-A:3"`. -/
theorem C5_store_collision_resolution_witness :
    validate_MsgStoreID ["F:A-A:1".toList] "x".toList false ∉ ["F:A-A:1".toList] ∧
    validate_MsgStoreID (["F:A-A:1".toList] ++ ["F:A-A:2".toList])
        (gen_MsgStoreID "F".toList "A".toList "A".toList) false =
      "F:A-A:3".toList :=
  ⟨C5_store_collision_resolution.1 ["F:A-A:1".toList] "x".toList,
    C5_store_collision_resolution.2 ["F:A-A:1".toList]
      "F".toList "A".toList "A".toList 2 (by decide) (by decide)⟩

/-- C5 counterexample: with store `{"F:A-A:1", "F:A-A:3"}` and the overwrite
prompt declined, the first save of a `F`/`A` message returns qualifier 2, and
the immediately following save of the same type returns qualifier 4 — not
`2 + 1 = 3` as the claim states, because qualifier 3 was already taken. -/
theorem C5_counterexample :
    validate_MsgStoreID ["F:A-A:1".toList, "F:A-A:3".toList]
        (gen_MsgStoreID "F".toList "A".toList "A".toList) false =
      "F:A-A:2".toList ∧
    validate_MsgStoreID
        (["F:A-A:1".toList, "F:A-A:3".toList] ++ ["F:A-A:2".toList])
        (gen_MsgStoreID "F".toList "A".toList "A".toList) false =
      "F:A-A:4".toList ∧
    ("F:A-A:4".toList : List Char) ≠ "F:A-A:3".toList := by
  refine ⟨by decide, by decide, by decide⟩

end Fixit

namespace Fixit

/-- C8 (amended): `MessageStore.remove` (`self.store.pop(store_id)`) deletes
the entry whose key is `store_id` when one is present, keeping every other
entry and their order; when the id is absent it is *not* a silent no-op:
`dict.pop` raises `KeyError` (modelled by `none`). -/
theorem erase_key_decomp {α : Type} (sid : List Char) :
    ∀ store : List (List Char × α),
      store.any (fun e => e.1 = sid) = true →
      ∃ v l₁ l₂, store = l₁ ++ (sid, v) :: l₂ ∧ (∀ e ∈ l₁, e.1 ≠ sid) ∧
        store.eraseP (fun e => e.1 = sid) = l₁ ++ l₂ := by
  intro store
  induction store with
  | nil =>
    intro h
    rw [List.any_nil] at h
    exact Bool.noConfusion h
  | cons e rest ih =>
    intro h
    by_cases he : e.1 = sid
    · refine ⟨e.2, [], rest, ?_, by simp, ?_⟩
      · simp only [List.nil_append, List.cons.injEq, and_true]
        rw [← he]
      · rw [List.eraseP_cons]
        simp [he]
    · have h' : rest.any (fun e => e.1 = sid) = true := by
        rw [List.any_cons] at h
        rcases Bool.or_eq_true_iff.mp h with h1 | h1
        · exact absurd (of_decide_eq_true h1) he
        · exact h1
      obtain ⟨v, l₁, l₂, h1, h2, h3⟩ := ih h'
      refine ⟨v, e :: l₁, l₂, by simp [h1], ?_, ?_⟩
      · intro x hx
        rcases List.mem_cons.mp hx with hx | hx
        · rw [hx]; exact he
        · exact h2 x hx
      · rw [List.eraseP_cons]
        have hd : decide (e.1 = sid) = false := by simpa using he
        rw [hd]
        simp only [cond_false]
        rw [List.cons_append, h3]

theorem C8_store_delete {α : Type} (store : List (List Char × α))
    (sid : List Char) :
    (store.any (fun e => e.1 = sid) = false → msgStoreRemove store sid = none) ∧
    (store.any (fun e => e.1 = sid) = true →
      ∃ v l₁ l₂, store = l₁ ++ (sid, v) :: l₂ ∧ (∀ e ∈ l₁, e.1 ≠ sid) ∧
        msgStoreRemove store sid = some (l₁ ++ l₂)) := by
  constructor
  · intro h
    unfold msgStoreRemove
    rw [h]
    rfl
  · intro h
    obtain ⟨v, l₁, l₂, h1, h2, h3⟩ := erase_key_decomp sid store h
    refine ⟨v, l₁, l₂, h1, h2, ?_⟩
    unfold msgStoreRemove
    rw [h, if_pos rfl, h3]

/-- C8 witness: on the store `{"A:B-C:1" ↦ "raw"}` deleting `"A:B-C:1"`
succeeds and yields the empty store, and deleting the absent `"nope"`
raises `KeyError` (`none`). -/
theorem C8_store_delete_witness :
    (∃ v l₁ l₂,
      [("A:B-C:1".toList, "raw".toList)] = l₁ ++ ("A:B-C:1".toList, v) :: l₂ ∧
      (∀ e ∈ l₁, e.1 ≠ "A:B-C:1".toList) ∧
      msgStoreRemove [("A:B-C:1".toList, "raw".toList)] "A:B-C:1".toList =
        some (l₁ ++ l₂)) ∧
    msgStoreRemove [("A:B-C:1".toList, "raw".toList)] "nope".toList = none :=
  ⟨(C8_store_delete [("A:B-C:1".toList, "raw".toList)] "A:B-C:1".toList).2
      (by decide),
    (C8_store_delete [("A:B-C:1".toList, "raw".toList)] "nope".toList).1
      (by decide)⟩

/-- C8 counterexample: deleting an absent id is not a silent no-op leaving
the store unchanged — `dict.pop` raises `KeyError` (`none`), whereas the
claim predicts the unchanged store. -/
theorem C8_counterexample :
    msgStoreRemove [("A:B-C:1".toList, "raw".toList)] "nope".toList = none ∧
    (none : Option (List (List Char × List Char))) ≠
      some [("A:B-C:1".toList, "raw".toList)] := by
  exact ⟨by decide, by simp⟩

end Fixit

namespace Fixit

/-!
## Wire Codec (`fixit/utils/common.py`)

`SOH_BIN = "\x01"` is the binary field delimiter; `SOH_UNI["value"]`
(default `"|"`, configurable via `--fix_delim`) is its printable substitute
and is passed to each function as the parameter `soh_uni`.  Python's
`ord c` is `Char.toNat`.
-/

/-- `SOH_BIN = "\x01"` from `fixit/core/constants.py`. -/
def SOH_BIN : Char := '\x01'

/-- Python `s.replace(a, b)` for single-character `a`, `b`. -/
def pyReplaceChar (a b : Char) (s : List Char) : List Char :=
  s.map (fun c => if c = a then b else c)

/-- Python `hay.index(needle)`: index of the first occurrence, `none` for
the `ValueError` raised when the needle does not occur. -/
def strIndexOf (needle : List Char) : List Char → Option Nat
  | [] => if needle.isPrefixOf [] then some 0 else none
  | c :: t =>
    if needle.isPrefixOf (c :: t) then some 0
    else (strIndexOf needle t).map (· + 1)

/-- Python `str.zfill(width)` on an unsigned digit string. -/
def zfill (width : Nat) (s : List Char) : List Char :=
  List.replicate (width - s.length) '0' ++ s

/-- The running sum `for c in s: checksum += ord(c)`. -/
def sumOrds (s : List Char) : Nat := s.foldl (fun a c => a + c.toNat) 0

/-- The delimiter auto-detection shared by the `msg_str_*` field functions:
`SOH = SOH_UNI['value'] if message.endswith(SOH_UNI['value']) else SOH_BIN`. -/
def detectSOH (soh_uni : Char) (message : List Char) : Char :=
  if pyEndsWith [soh_uni] message then soh_uni else SOH_BIN

/-- The `for`-loop of `Utils.msg_str_set_field`: replace the first field
starting with `f"{field_num}="` by `f"{field_num}={value}"`, leaving every
other field untouched (the loop `break`s after the first match). -/
def setFieldFirst (field_num : Nat) (value : List Char) :
    List (List Char) → List (List Char)
  | [] => []
  | f :: fs =>
    if pyStartsWith (natToChars field_num ++ ['=']) f then
      (natToChars field_num ++ '=' :: value) :: fs
    else f :: setFieldFirst field_num value fs

/-- `Utils.msg_str_set_field`: split on the detected delimiter, update the
first matching field in place, re-join. -/
def msg_str_set_field (soh_uni : Char) (message : List Char) (field_num : Nat)
    (value : List Char) : List Char :=
  pyJoin (detectSOH soh_uni message)
    (setFieldFirst field_num value
      (pySplit (detectSOH soh_uni message) message))

/-- Python exceptions surfaced by the codec. -/
inductive PyErr where
  | fieldNotFound
  | attributeError
  deriving DecidableEq, Repr

/-- `Utils.msg_str_get_field`: split on the detected delimiter and scan for
the first field starting with `f"{field_num}="`.  When such a field is
found, the source evaluates `field.solit("=", 1)[1]` — `solit` is a
misspelling of `split`, so Python raises `AttributeError` (`'str' object
has no attribute 'solit'`) before producing any value; when no field
matches, `fix.FieldNotFound` is raised. -/
def msg_str_get_field (soh_uni : Char) (message : List Char)
    (field_num : Nat) : Except PyErr (List Char) :=
  match (pySplit (detectSOH soh_uni message) message).find?
      (fun f => pyStartsWith (natToChars field_num ++ ['=']) f) with
  | some _ => .error .attributeError
  | none => .error .fieldNotFound

/-- `Utils.msg_str_calc_chksum`: replace the printable delimiter by binary
SOH, sum the character codes of everything before the first occurrence of
`"\x0110="`, and format `(checksum % 256) + 1` zero-padded to width 3.
`none` models the `ValueError` of `str.index` when no `"\x0110="` occurs. -/
def msg_str_calc_chksum (soh_uni : Char) (message : List Char) :
    Option (List Char) :=
  match strIndexOf (SOH_BIN :: ('1' :: '0' :: '=' :: []))
      (pyReplaceChar soh_uni SOH_BIN message) with
  | none => none
  | some i =>
    some (zfill 3 (natToChars
      (sumOrds ((pyReplaceChar soh_uni SOH_BIN message).take i) % 256 + 1)))

end Fixit

namespace Fixit

theorem strIndexOf_first_occurrence (needle : List Char) (hn : needle ≠ []) :
    ∀ pre rest : List Char,
      ¬ (needle <:+: pre ++ needle.dropLast) →
      strIndexOf needle (pre ++ needle ++ rest) = some pre.length := by
  intro pre
  induction pre with
  | nil =>
    intro rest _
    have hp : needle.isPrefixOf (needle ++ rest) = true := by
      rw [List.isPrefixOf_iff_prefix]
      exact List.prefix_append needle rest
    cases hne : needle ++ rest with
    | nil =>
      exact absurd (List.append_eq_nil.mp hne).1 hn
    | cons c t =>
      simp only [List.nil_append, strIndexOf, hne, List.length_nil]
      rw [hne] at hp
      rw [if_pos hp]
  | cons c pre' ih =>
    intro rest hfirst
    have hnp : needle.isPrefixOf (c :: (pre' ++ needle ++ rest)) = false := by
      rw [Bool.eq_false_iff]
      intro hpref
      apply hfirst
      rw [List.isPrefixOf_iff_prefix] at hpref
      have hsplit : c :: (pre' ++ needle ++ rest) =
          (c :: pre' ++ needle.dropLast) ++
            (needle.getLast hn :: rest) := by
        conv_lhs => rw [← List.dropLast_append_getLast hn]
        simp [List.append_assoc]
      rw [hsplit] at hpref
      have hlen : needle.length ≤ (c :: pre' ++ needle.dropLast).length := by
        simp only [List.length_append, List.length_cons, List.length_dropLast]
        have := List.length_pos.mpr hn
        omega
      exact (List.prefix_of_prefix_length_le hpref
        (List.prefix_append _ _) hlen).isInfix
    have hfirst' : ¬ (needle <:+: pre' ++ needle.dropLast) := by
      intro h
      exact hfirst (List.infix_cons h)
    simp only [List.cons_append, strIndexOf]
    simp only [List.append_eq]
    rw [hnp]
    simp only [Bool.false_eq_true, if_false]
    rw [ih rest hfirst']
    rfl

/-- C3: for every message in which the 4-character marker `"\x0110="`
(binary SOH followed by the checksum tag) occurs for the first time right
after a prefix `pre` of the delimiter-normalised message,
`msg_str_calc_chksum` returns the sum of the character codes of `pre`,
taken modulo 256 and then incremented by 1, rendered in decimal and
zero-padded to at least 3 digits. -/
theorem C3_checksum_formula (soh_uni : Char) (message pre rest : List Char)
    (hdec : pyReplaceChar soh_uni SOH_BIN message =
      pre ++ (SOH_BIN :: ('1' :: '0' :: '=' :: [])) ++ rest)
    (hfirst : ¬ ((SOH_BIN :: ('1' :: '0' :: '=' :: [])) <:+:
      pre ++ (SOH_BIN :: ('1' :: '0' :: '=' :: [])).dropLast)) :
    msg_str_calc_chksum soh_uni message =
      some (zfill 3 (natToChars (sumOrds pre % 256 + 1))) := by
  unfold msg_str_calc_chksum
  rw [hdec]
  rw [strIndexOf_first_occurrence (SOH_BIN :: ('1' :: '0' :: '=' :: []))
    (by simp) pre rest hfirst]
  simp only [List.append_assoc, List.take_left]

/-- C3 witness: the concrete message `8=FIX.4.2|9=5|35=A|10=000|`.
The character codes before the checksum field (with `|` normalised to
`\x01`) sum to 945, and `945 % 256 + 1 = 178`, so the computed checksum
string is `"178"`. -/
theorem C3_checksum_formula_witness :
    msg_str_calc_chksum '|' "8=FIX.4.2|9=5|35=A|10=000|".toList =
      some (zfill 3 (natToChars
        (sumOrds "8=FIX.4.2\x019=5\x0135=A".toList % 256 + 1))) ∧
    sumOrds "8=FIX.4.2\x019=5\x0135=A".toList % 256 + 1 = 178 ∧
    zfill 3 (natToChars 178) = "178".toList :=
  ⟨C3_checksum_formula '|' "8=FIX.4.2|9=5|35=A|10=000|".toList
      "8=FIX.4.2\x019=5\x0135=A".toList "000\x01".toList
      (by decide) (by decide),
    by decide, by decide⟩

end Fixit

namespace Fixit

theorem msg_str_get_field_never_ok (soh_uni : Char) (message : List Char)
    (field_num : Nat) (v : List Char) :
    msg_str_get_field soh_uni message field_num ≠ .ok v := by
  unfold msg_str_get_field
  cases h : (pySplit (detectSOH soh_uni message) message).find?
      (fun f => pyStartsWith (natToChars field_num ++ ['=']) f) with
  | none => simp
  | some f => simp

/-- C2: on the concrete message `8=FIX.4.2|35=A|10=000|`, `msg_str_set_field`
updates tag 35 in place (every other field, their count and their order are
untouched), but `msg_str_get_field` on the result raises `AttributeError`
(the source evaluates `field.solit("=", 1)` — a typo for `split` — as soon
as a matching field is found) instead of returning the value `"1"` that the
claim promises. -/
theorem C2_set_get_attribute_error :
    msg_str_set_field '|' "8=FIX.4.2|35=A|10=000|".toList 35 "1".toList =
      "8=FIX.4.2|35=1|10=000|".toList ∧
    msg_str_get_field '|' "8=FIX.4.2|35=1|10=000|".toList 35 =
      .error .attributeError := by
  exact ⟨by decide, by rfl⟩

end Fixit

namespace Fixit

/-!
## Fuzzing Engine (`fixit/core/commands/message/message_fuzz.py`)
-/

/-- `DELIM_BIN = "\x3D"` from `fixit/core/constants.py` (this is the same
character as `DELIM_UNI = "="`). -/
def DELIM_BIN : Char := '\x3D'

/-- `DELIM_UNI = "="` from `fixit/core/constants.py`. -/
def DELIM_UNI : Char := '='

/-- `Fuzz._generate_fuzz_data(n)`: one single-character payload `chr(v)`
for every `v in range(n)` whose character is none of
`SOH_UNI['value']`, `SOH_BIN`, `DELIM_UNI`, `DELIM_BIN`.
`_fuzz_message_fields` calls it with `n = 100`. -/
def generate_fuzz_data (soh_uni : Char) (n : Nat) : List (List Char) :=
  ((List.range n).filter
    (fun v => Char.ofNat v ∉ [soh_uni, SOH_BIN, DELIM_UNI, DELIM_BIN])).map
    (fun v => [Char.ofNat v])

/-- C10 (amended): with no dictionary file the payload set is one payload
per character code `v < 100` (the call passes `n = 100`, so control
characters 0–31 are included and the printable characters 100–126 are not),
excluding the printable and binary field delimiter and the `"="` tag-value
delimiter; every payload is exactly one character. -/
theorem C10_generated_payloads (soh_uni : Char) :
    (∀ p ∈ generate_fuzz_data soh_uni 100, p.length = 1) ∧
    (∀ v : Nat, v < 100 →
      ([Char.ofNat v] ∈ generate_fuzz_data soh_uni 100 ↔
        Char.ofNat v ∉ [soh_uni, SOH_BIN, DELIM_UNI, DELIM_BIN])) ∧
    (∀ p ∈ generate_fuzz_data soh_uni 100,
      ∃ v : Nat, v < 100 ∧ p = [Char.ofNat v]) := by
  refine ⟨?_, ?_, ?_⟩
  · intro p hp
    obtain ⟨v, _, rfl⟩ := List.mem_map.mp hp
    rfl
  · intro v hv
    constructor
    · intro hmem
      obtain ⟨v', hv', he⟩ := List.mem_map.mp hmem
      rw [List.mem_filter] at hv'
      have : Char.ofNat v' = Char.ofNat v := by
        simpa using he
      rw [← this]
      simpa using hv'.2
    · intro hnot
      apply List.mem_map.mpr
      exact ⟨v, List.mem_filter.mpr ⟨List.mem_range.mpr hv, by simpa using hnot⟩, rfl⟩
  · intro p hp
    obtain ⟨v, hv, rfl⟩ := List.mem_map.mp hp
    rw [List.mem_filter] at hv
    exact ⟨v, List.mem_range.mp hv.1, rfl⟩

/-- C10 witness: with the default `'|'` delimiter, payload `"\x00"`
(code 0) is generated. -/
theorem C10_generated_payloads_witness :
    ['\x00'] ∈ generate_fuzz_data '|' 100 ↔
      ('\x00' : Char) ∉ ['|', SOH_BIN, DELIM_UNI, DELIM_BIN] :=
  (C10_generated_payloads '|').2.1 0 (by decide)

/-- C10 counterexample: the generated set is not "all printable-range
single characters excluding only the field delimiter forms": the
non-printable NUL character is a payload, the printable `'~'` (code 126)
is not, and `'='` (the tag-value delimiter, not a field delimiter) is
excluded as well. -/
theorem C10_counterexample :
    ['\x00'] ∈ generate_fuzz_data '|' 100 ∧
    ['~'] ∉ generate_fuzz_data '|' 100 ∧
    ['='] ∉ generate_fuzz_data '|' 100 := by
  refine ⟨by decide, by decide, by decide⟩

end Fixit

namespace Fixit

/-- The response-await loop of `Fuzz._fuzz_message_fields` (source lines
165–179).  `obs k` is the `msg` of the most recent History Log entry seen at
the k-th poll (`get_session_message_log(session_num, depth=1)[0]["msg"]`),
and `sending_time` is the timestamp just written into tag 52.  The loop is

```
attempts = 0
response = ""
while attempts < 10:
    last_message = ...
    if sending_time not in last_message:
        response = last_message
        break
    time.sleep(FUZZ_DELAY['value'])
```

`attempts` is initialised and compared but never incremented, and that is
embedded as-is.  `fuel` only bounds how many iterations we observe:
`none` means the loop is still running after `fuel` iterations,
`some r` that it finished with `response = r` (the `attempts < 10` exit
leaves `response = ""`). -/
def fuzzAwaitResponse (obs : Nat → List Char) (sending_time : List Char) :
    Nat → Nat → Nat → Option (List Char)
  | 0, _, _ => none
  | fuel + 1, k, attempts =>
    if attempts < 10 then
      if sending_time <:+: obs k then
        fuzzAwaitResponse obs sending_time fuel (k + 1) attempts
      else some (obs k)
    else some []

/-- C1 (behaviour of the code as written): when every polled History Log
entry still contains the just-set timestamp (i.e. the counterparty never
responds and the last entry stays the message just sent), the await loop
never terminates — after any number of iterations it is still running,
because `attempts` is never incremented and `attempts < 10` stays true
forever.  In particular it never stops after 10 attempts and never records
an empty response. -/
theorem C1_fuzz_poll_never_terminates (obs : Nat → List Char)
    (sending_time : List Char)
    (h : ∀ k, sending_time <:+: obs k) :
    ∀ fuel k, fuzzAwaitResponse obs sending_time fuel k 0 = none := by
  intro fuel
  induction fuel with
  | zero => intro k; rfl
  | succ fuel ih =>
    intro k
    unfold fuzzAwaitResponse
    rw [if_pos (by norm_num)]
    rw [if_pos (h k)]
    exact ih (k + 1)

/-- C1 witness: with the constant observation `"52=X"` (which contains the
timestamp `"52=X"`), the loop is still running after 1000 iterations. -/
theorem C1_fuzz_poll_never_terminates_witness :
    fuzzAwaitResponse (fun _ => "52=X".toList) "52=X".toList 1000 0 0 = none :=
  C1_fuzz_poll_never_terminates (fun _ => "52=X".toList) "52=X".toList
    (fun _ => List.infix_refl _) 1000 0

end Fixit

namespace Fixit

/-!
## Session Sequence Tracker (`fixit/fix/base_application.py`)

Per-session override state touched by `fromAdmin` (lines 444–471) and the
logon branch of `toAdmin` (lines 373–394).  The `re.search` results on the
Text (58) field are passed in as the already-captured numbers: `mSeq` is
group(2) of `r"^.*(MsgSeqNum).*expecting ([0-9]+).*$"` and `mNextExp`
group(2) of `r"^.*(NextExpectedMsgSeqNum).*expecting ([0-9]+).*$"`, or
`none` when the pattern does not match.
-/

/-- The per-session sequence-override state:
`session_NextSenderSeqNum`, `session_NextExpSeqNum`, `session_loggedon`. -/
structure SeqState where
  nextSender : Option Nat
  nextExp : Option Nat
  loggedOn : Bool
  deriving DecidableEq, Repr

/-- Python truthiness of the override slots (`if self.session_...[sid]:`):
`None` and `0` are falsy. -/
def pyTruthyNat : Option Nat → Bool
  | none => false
  | some n => n != 0

/-- `fromAdmin`'s Text-field handling: each matched pattern stores
`int(result.group(2)) + 2` into its override slot. -/
def fromAdmin_seq_update (mSeq mNextExp : Option Nat) (st : SeqState) :
    SeqState :=
  let st1 :=
    match mSeq with
    | some n => { st with nextSender := some (n + 2) }
    | none => st
  match mNextExp with
  | some n => { st1 with nextExp := some (n + 2) }
  | none => st1

/-- The header/body fields of an outgoing Logon message that the
correction code touches. -/
structure AdminMsg where
  msgSeqNum : Option Nat
  nextExpectedMsgSeqNum : Option Nat
  deriving DecidableEq, Repr

/-- The sequence-correction part of `toAdmin`'s Logon branch.  Returns the
new override state, the modified message, and the argument of the
engine-level `setNextSenderMsgSeqNum` call (`none` when not called):
if the sender override is truthy it is pushed into the engine and the
MsgSeqNum header field and then cleared; if the next-expected override is
truthy the NextExpectedMsgSeqNum field is set, and only when the session is
already logged on is the override cleared and the field removed again. -/
def toAdmin_seq_correct (st : SeqState) (msg : AdminMsg) :
    SeqState × AdminMsg × Option Nat :=
  let step1 :=
    if pyTruthyNat st.nextSender then
      ({ st with nextSender := none },
        { msg with msgSeqNum := st.nextSender }, st.nextSender)
    else (st, msg, none)
  if pyTruthyNat step1.1.nextExp then
    if step1.1.loggedOn then
      ({ step1.1 with nextExp := none },
        { step1.2.1 with nextExpectedMsgSeqNum := none }, step1.2.2)
    else
      (step1.1,
        { step1.2.1 with nextExpectedMsgSeqNum := step1.1.nextExp }, step1.2.2)
  else step1

/-- C6 (amended): a reported sequence number `N` in an inbound admin
message's Text field is stored as the override `N + 2` (not `N`); the next
outgoing Logon consumes the sender override into the engine and the
MsgSeqNum field and clears it unconditionally (one-shot), while the
next-expected override is written into the NextExpectedMsgSeqNum field on
every Logon and is cleared only once the session is logged on — before
that it is re-applied on every Logon rather than at most once. -/
theorem C6_seq_overrides (N : Nat) (mSeq mNextExp : Option Nat)
    (st : SeqState) (msg : AdminMsg) :
    ((fromAdmin_seq_update (some N) mNextExp st).nextSender = some (N + 2)) ∧
    ((fromAdmin_seq_update mSeq (some N) st).nextExp = some (N + 2)) ∧
    (pyTruthyNat st.nextSender = true →
      (toAdmin_seq_correct st msg).1.nextSender = none ∧
      (toAdmin_seq_correct st msg).2.1.msgSeqNum = st.nextSender ∧
      (toAdmin_seq_correct st msg).2.2 = st.nextSender) ∧
    (pyTruthyNat st.nextExp = true → st.loggedOn = true →
      (toAdmin_seq_correct st msg).1.nextExp = none ∧
      (toAdmin_seq_correct st msg).2.1.nextExpectedMsgSeqNum = none) ∧
    (pyTruthyNat st.nextExp = true → st.loggedOn = false →
      (toAdmin_seq_correct st msg).1.nextExp = st.nextExp ∧
      (toAdmin_seq_correct st msg).2.1.nextExpectedMsgSeqNum = st.nextExp) := by
  refine ⟨?_, ?_, ?_, ?_, ?_⟩
  · unfold fromAdmin_seq_update
    cases mNextExp <;> rfl
  · unfold fromAdmin_seq_update
    cases mSeq <;> rfl
  · intro hs
    unfold toAdmin_seq_correct
    simp only [hs, if_true]
    by_cases he : pyTruthyNat st.nextExp = true
    · simp only [he, if_true]
      by_cases hl : st.loggedOn <;> simp [hl]
    · rw [Bool.not_eq_true] at he
      simp [he]
  · intro he hl
    unfold toAdmin_seq_correct
    by_cases hs : pyTruthyNat st.nextSender = true
    · simp [hs, he, hl]
    · rw [Bool.not_eq_true] at hs
      simp [hs, he, hl]
  · intro he hl
    unfold toAdmin_seq_correct
    by_cases hs : pyTruthyNat st.nextSender = true
    · simp [hs, he, hl]
    · rw [Bool.not_eq_true] at hs
      simp [hs, he, hl]

/-- C6 witness: from the state with no overrides and session not logged on,
a Text field reporting `expecting 5` for MsgSeqNum stores `7`; on a state
holding sender override `7` and next-expected override `9`, a Logon
consumes the sender override but keeps the next-expected one. -/
theorem C6_seq_overrides_witness :
    ((fromAdmin_seq_update (some 5) none ⟨none, none, false⟩).nextSender =
      some 7) ∧
    ((toAdmin_seq_correct ⟨some 7, some 9, false⟩ ⟨none, none⟩).1.nextSender =
      none) ∧
    ((toAdmin_seq_correct ⟨some 7, some 9, false⟩ ⟨none, none⟩).1.nextExp =
      some 9) :=
  ⟨(C6_seq_overrides 5 none none ⟨none, none, false⟩ ⟨none, none⟩).1,
    ((C6_seq_overrides 5 none none ⟨some 7, some 9, false⟩ ⟨none, none⟩).2.2.1
      (by decide)).1,
    ((C6_seq_overrides 5 none none ⟨some 7, some 9, false⟩ ⟨none, none⟩).2.2.2.2
      (by decide) (by decide)).1⟩

/-- C6 counterexample: the Text field `"MsgSeqNum too low, expecting 5 but
received 3"` captures `N = 5`, yet the recorded one-shot override is `7`,
not the corrected value `5` the claim states; and with the session not yet
logged on, a Logon does not clear the next-expected override, so that
override is not applied at most once. -/
theorem C6_counterexample :
    ((fromAdmin_seq_update (some 5) none ⟨none, none, false⟩).nextSender =
      some 7 ∧ (some 7 : Option Nat) ≠ some 5) ∧
    ((toAdmin_seq_correct ⟨none, some 9, false⟩ ⟨none, none⟩).1.nextExp =
      some 9 ∧ (some 9 : Option Nat) ≠ none) := by
  refine ⟨⟨by decide, by decide⟩, ⟨by decide, by decide⟩⟩

end Fixit

namespace Fixit

/-- `MANUAL_RECON_INT = 0` from `fixit/core/constants.py`. -/
def MANUAL_RECON_INT : Nat := 0

/-- The confirmation loop of `BaseFixApplication.logout` (lines 299–308):
`while self.isLoggedOn(session_num) is True`, breaking with an error once
the `LOGOUT_TIMEOUT` threshold has elapsed.  `isLoggedOn k` is the k-th
poll observation and `deadline` the number of polls that fit into the
threshold (`threshhold / POLL_TIME`); the result is `true` when the logout
was confirmed before the deadline, `false` on timeout.  The loop reads the
session configuration but never writes it. -/
def logoutPoll (isLoggedOn : Nat → Bool) : Nat → Nat → Bool
  | 0, _ => false
  | fuel + 1, k => if isLoggedOn k then logoutPoll isLoggedOn fuel (k + 1)
                   else true

/-- `BaseFixApplication.logout` (lines 270–310), as its effect on the
session's `ReconnectInterval` configuration value together with the poll
outcome.  The function first writes `MANUAL_RECON_INT` (0) into the
configuration; if a logon attempt is in progress it returns immediately,
otherwise it triggers the engine logout (external) and runs the bounded
confirmation loop.  No path writes the configured interval again: the
original value `recon` is discarded, not restored. -/
def logout_reconnect_effect (recon : Nat) (attempting : Bool)
    (isLoggedOn : Nat → Bool) (deadline : Nat) : Nat × Bool :=
  if attempting then (MANUAL_RECON_INT, false)
  else (MANUAL_RECON_INT, logoutPoll isLoggedOn deadline 0)

theorem logoutPoll_confirms_iff (isLoggedOn : Nat → Bool) :
    ∀ fuel k, logoutPoll isLoggedOn fuel k = true ↔
      ∃ i, i < fuel ∧ isLoggedOn (k + i) = false := by
  intro fuel
  induction fuel with
  | zero =>
    intro k
    simp [logoutPoll]
  | succ fuel ih =>
    intro k
    unfold logoutPoll
    by_cases h : isLoggedOn k = true
    · rw [if_pos h, ih (k + 1)]
      constructor
      · rintro ⟨i, hi, hoff⟩
        exact ⟨i + 1, by omega, by rw [show k + (i + 1) = k + 1 + i by omega]; exact hoff⟩
      · rintro ⟨i, hi, hoff⟩
        cases i with
        | zero => rw [Nat.add_zero] at hoff; rw [hoff] at h; cases h
        | succ j =>
          exact ⟨j, by omega, by rw [show k + 1 + j = k + (j + 1) by omega]; exact hoff⟩
    · rw [Bool.not_eq_true] at h
      rw [if_neg (by simp [h])]
      simp only [true_iff]
      exact ⟨0, by omega, by simpa using h⟩

/-- C7 (amended): `logout` overrides the session's reconnect interval to
zero before triggering the logout, and (when no logon attempt is in
progress) polls the logged-on state up to the logout-timeout deadline,
confirming exactly when a poll within the deadline observes the session
logged off; but the original reconnect-interval value is *not* restored
afterwards — whatever the outcome, the configured interval remains 0 (it
is restored only by a later `logon` call). -/
theorem C7_logout_reconnect (recon : Nat) (attempting : Bool)
    (isLoggedOn : Nat → Bool) (deadline : Nat) :
    ((logout_reconnect_effect recon attempting isLoggedOn deadline).1 =
      MANUAL_RECON_INT) ∧
    (attempting = false →
      ((logout_reconnect_effect recon attempting isLoggedOn deadline).2 = true ↔
        ∃ i, i < deadline ∧ isLoggedOn i = false)) := by
  constructor
  · unfold logout_reconnect_effect
    by_cases h : attempting <;> simp [h]
  · intro ha
    unfold logout_reconnect_effect
    rw [ha]
    simp only [Bool.false_eq_true, if_false]
    rw [logoutPoll_confirms_iff isLoggedOn deadline 0]
    simp

/-- C7 witness: original interval 30, no logon attempt in progress, the
engine reports logged-off at the first poll: logout confirms, and the
reconnect interval afterwards is 0. -/
theorem C7_logout_reconnect_witness :
    ((logout_reconnect_effect 30 false (fun _ => false) 5).1 =
      MANUAL_RECON_INT) ∧
    ((logout_reconnect_effect 30 false (fun _ => false) 5).2 = true ↔
      ∃ i, i < 5 ∧ (fun _ : Nat => false) i = false) :=
  ⟨(C7_logout_reconnect 30 false (fun _ => false) 5).1,
    (C7_logout_reconnect 30 false (fun _ => false) 5).2 rfl⟩

/-- C7 counterexample: with original reconnect interval 30 and a logout
that completes successfully, the configured interval afterwards is 0, not
the restored 30 the claim requires. -/
theorem C7_counterexample :
    (logout_reconnect_effect 30 false (fun _ => false) 5).1 = 0 ∧
    (0 : Nat) ≠ 30 := by
  exact ⟨rfl, by decide⟩

end Fixit

namespace Fixit

/-!
## History Log and Interception Pipeline (`fixit/fix/base_application.py`)
-/

/-- One History Log record, mirroring the keys of `msg_obj` in
`BaseFixApplication._log_message`. -/
structure LogEntry where
  time : List Char
  uuid : List Char
  state : List Char
  route : List Char
  type : List Char
  msg : List Char
  notes : List Char
  deriving DecidableEq, Repr

/-- Membership test of Python `string.printable` / `string.whitespace` used
by `msg_encode_binary_chars`: codes 0x20–0x7e plus the whitespace control
characters. -/
def isPrintablePy (c : Char) : Bool :=
  (0x20 ≤ c.toNat && c.toNat ≤ 0x7e) ||
    c ∈ ['\t', '\n', '\x0d', '\x0b', '\x0c']

/-- Hex digit emission with fuel, for Python's `f"{n:02x}"`. -/
def hexCharsAux : Nat → Nat → List Char
  | 0, _ => []
  | fuel + 1, n =>
    if n = 0 then [] else hexCharsAux fuel (n / 16) ++ [Nat.digitChar (n % 16)]

/-- Python `f"{n:02x}"`: lowercase hex, zero-padded to width 2. -/
def pyHex02 (n : Nat) : List Char :=
  zfill 2 (if n = 0 then ['0'] else hexCharsAux n n)

/-- `FixitClient.msg_encode_binary_chars`: printable and delimiter
characters pass through, anything else becomes `\0x%02x`. -/
def msg_encode_binary_chars (soh_uni : Char) (s : List Char) : List Char :=
  (s.map (fun c =>
    if isPrintablePy c then [c]
    else if c = SOH_BIN ∨ c = soh_uni then [c]
    else '\\' :: '0' :: 'x' :: pyHex02 c.toNat)).flatten

/-- `FixitClient.msg_to_str` on a string argument with `binary=False`:
binary SOH is replaced by the printable delimiter, then non-printable
characters are escaped. -/
def msg_to_str_str (soh_uni : Char) (s : List Char) : List Char :=
  msg_encode_binary_chars soh_uni (pyReplaceChar SOH_BIN soh_uni s)

/-- The file-logging portion of `BaseFixApplication._log_message`
(lines 493–522).  `queued` is the result of `self.message_queue.peek()`
decoded to a string (`none` models the `queue.Empty` exception of an empty
interception queue); `orig_msg_str` is `self.msg_to_str(message)` for the
message the engine is about to transmit; `u1`/`u2` are the two generated
uuids and `t1`/`t2` the timestamps `_log_to_file` stamps on the first and
second CSV write.  With a queued substitution the original is first written
as `INTERCEPTED`, then the queued replacement is written as `SENT` with a
fresh uuid and a note naming the intercepted row's uuid; with an empty
queue a single `SENT` row is written. -/
def log_message_rows (soh_uni : Char) (queued : Option (List Char))
    (orig_msg_str route ty u1 u2 t1 t2 : List Char) : List LogEntry :=
  let base : LogEntry :=
    { time := t1, uuid := u1, state := "SENT".toList, route := route,
      type := ty, msg := orig_msg_str, notes := [] }
  match queued with
  | some q =>
    let intercepted := { base with state := "INTERCEPTED".toList }
    let sent :=
      { intercepted with
        msg := msg_to_str_str soh_uni q,
        state := "SENT".toList,
        notes := "Modified version of ".toList ++ u1,
        uuid := u2,
        time := t2 }
    [intercepted, sent]
  | none => [base]

/-- C4: whenever a substitution is queued at transmission time, the log
hook writes exactly two rows: one `INTERCEPTED` row carrying the original
message, immediately followed by one `SENT` row carrying the queued
replacement (in display encoding), whose notes field names the intercepted
row's uuid. -/
theorem C4_interception_rows (soh_uni : Char)
    (q orig_msg_str route ty u1 u2 t1 t2 : List Char) :
    ∃ ri rs,
      log_message_rows soh_uni (some q) orig_msg_str route ty u1 u2 t1 t2 =
        [ri, rs] ∧
      ri.state = "INTERCEPTED".toList ∧
      ri.msg = orig_msg_str ∧
      ri.uuid = u1 ∧
      rs.state = "SENT".toList ∧
      rs.msg = msg_to_str_str soh_uni q ∧
      rs.notes = "Modified version of ".toList ++ ri.uuid ∧
      rs.uuid = u2 ∧
      ri.state ≠ rs.state := by
  refine ⟨_, _, rfl, rfl, rfl, rfl, rfl, rfl, rfl, rfl, ?_⟩
  show "INTERCEPTED".toList ≠ "SENT".toList
  decide

end Fixit

namespace Fixit

/-- Python `lst[-depth:]` for a natural `depth`: the whole list when
`depth = 0` (since `-0 == 0`), otherwise the last `depth` elements. -/
def pyLastSlice {α : Type} (l : List α) (depth : Nat) : List α :=
  if depth = 0 then l else l.drop (l.length - depth)

/-- `BaseFixApplication.get_session_message_log` (lines 727–748): keep the
entries whose raw message or resolved message-type name matches the filter,
then take the last `depth` of them.  `matches` abstracts the external
`re.search(f".*{filter}.*", ·, re.IGNORECASE)` call and `typeOf` the
external `self.get_message_type(·)[1]` message-type-name resolution. -/
def get_session_message_log (matchs : List Char → Bool)
    (typeOf : List Char → List Char) (log : List LogEntry) (depth : Nat) :
    List LogEntry :=
  pyLastSlice
    (log.filter (fun m => matchs m.msg || matchs (typeOf m.msg))) depth

/-- C9: the query returns a selection of the session log in log order, every
returned entry matches the filter on its raw message or its resolved type
name, `depth = 0` returns all matching entries, and a positive `depth`
returns exactly the last `depth` matching entries (all of them when fewer
than `depth` match). -/
theorem C9_history_query (matchs : List Char → Bool)
    (typeOf : List Char → List Char) (log : List LogEntry) (depth : Nat) :
    (get_session_message_log matchs typeOf log depth).Sublist log ∧
    (∀ e ∈ get_session_message_log matchs typeOf log depth,
      (matchs e.msg || matchs (typeOf e.msg)) = true) ∧
    (depth = 0 →
      get_session_message_log matchs typeOf log depth =
        log.filter (fun m => matchs m.msg || matchs (typeOf m.msg))) ∧
    (0 < depth →
      (get_session_message_log matchs typeOf log depth).IsSuffix
        (log.filter (fun m => matchs m.msg || matchs (typeOf m.msg))) ∧
      (get_session_message_log matchs typeOf log depth).length =
        min depth
          (log.filter (fun m => matchs m.msg || matchs (typeOf m.msg))).length) := by
  unfold get_session_message_log pyLastSlice
  by_cases h0 : depth = 0
  · rw [if_pos h0]
    refine ⟨List.filter_sublist log, ?_, fun _ => rfl, fun hd => absurd h0 (by omega)⟩
    intro e he
    exact (List.mem_filter.mp he).2
  · rw [if_neg h0]
    refine ⟨?_, ?_, fun hd => absurd hd h0, fun _ => ⟨List.drop_suffix _ _, ?_⟩⟩
    · exact
        (List.IsSuffix.sublist (List.drop_suffix _ _)).trans
          (List.filter_sublist log)
    · intro e he
      have := (List.drop_suffix _ _).subset he
      exact (List.mem_filter.mp this).2
    · rw [List.length_drop]
      omega

/-- A concrete two-entry session log used by the C9 witness. -/
def sampleLog : List LogEntry :=
  [{ time := [], uuid := [], state := [], route := [], type := [],
     msg := "A".toList, notes := [] },
   { time := [], uuid := [], state := [], route := [], type := [],
     msg := "B".toList, notes := [] }]

/-- C9 witness: a two-entry log where only the first entry matches, queried
with `depth = 0` and `depth = 1`. -/
theorem C9_history_query_witness :
    (get_session_message_log (fun m => m = "A".toList) (fun _ => "T".toList)
        sampleLog 0 =
      sampleLog.filter
        (fun m => (m.msg = "A".toList : Bool) ||
          (((fun _ => "T".toList) m.msg : List Char) = "A".toList : Bool))) ∧
    (get_session_message_log (fun m => m = "A".toList) (fun _ => "T".toList)
        sampleLog 1).length =
      min 1
        (sampleLog.filter
          (fun m => (m.msg = "A".toList : Bool) ||
            (((fun _ => "T".toList) m.msg : List Char) = "A".toList : Bool))).length :=
  ⟨(C9_history_query (fun m => m = "A".toList) (fun _ => "T".toList)
      sampleLog 0).2.2.1 rfl,
    ((C9_history_query (fun m => m = "A".toList) (fun _ => "T".toList)
      sampleLog 1).2.2.2 (by decide)).2⟩

end Fixit
